import Mathlib

/-!
Verification of `scripts/extract_structured.py`: a CLI filter that reads raw
text on standard input, calls an external extraction engine, and prints a
deterministic structured text grouped by extraction label.

The Python code is shallowly embedded: strings are Lean `String`s viewed as
their character lists (Python slicing, `strip`, `title`, `replace` and
lexicographic comparison are modelled character-wise), the engine result is a
`Option (List Extraction)` (`none` models an object without an `extractions`
attribute), and the driver is a pure function from standard input, the
process environment and an engine oracle to an exit code plus the texts
written on the two output streams.
-/

/-- Characters stripped by Python's `str.strip()` (the ASCII whitespace set;
`strip` also removes a handful of rarer Unicode space characters, which no
claim here depends on). -/
def pyIsSpace (c : Char) : Bool :=
  c = ' ' || c = '\t' || c = '\n' || c = '\r' || c = '\x0b' || c = '\x0c'

/-- `str.strip()` on a character list: drop whitespace from both ends. -/
def pyStripList (l : List Char) : List Char :=
  ((l.dropWhile pyIsSpace).reverse.dropWhile pyIsSpace).reverse

/-- Python `s.strip()`. -/
def pyStrip (s : String) : String :=
  String.mk (pyStripList s.data)

/-- Python `s[:n]` (prefix of the first `n` characters). -/
def pySlice (s : String) (n : Nat) : String :=
  String.mk (s.data.take n)

/-- Python `s.replace('_', ' ')`: single-character replacement is a map. -/
def pyReplaceUnderscores (s : String) : String :=
  String.mk (s.data.map (fun c => if c = '_' then ' ' else c))

/-- Helper for `str.title()`: the running flag records whether the previous
character was cased (a letter); a letter after a cased character is
lowercased, a letter after a non-cased character is uppercased. -/
def pyTitleAux : Bool → List Char → List Char
  | _, [] => []
  | prevCased, c :: cs =>
    (if c.isAlpha then (if prevCased then c.toLower else c.toUpper) else c) ::
      pyTitleAux c.isAlpha cs

/-- Python `s.title()`. -/
def pyTitle (s : String) : String :=
  String.mk (pyTitleAux false s.data)

/-- Python string `<=` on character lists: lexicographic by code point.
Defined here because the comparison must be kernel-computable. -/
def pyLeb : List Char → List Char → Bool
  | [], _ => true
  | _ :: _, [] => false
  | a :: as, b :: bs => if a < b then true else if b < a then false else pyLeb as bs

/-- Python `s <= t` for strings, as used by `sorted`. -/
def pyStrLe (s t : String) : Prop := pyLeb s.data t.data = true

instance : DecidableRel pyStrLe :=
  fun s t => instDecidableEqBool (pyLeb s.data t.data) true

/-- The key order `sorted(by_class.items())` uses: Python compares the
`(key, value)` tuples, but the keys of a dict are distinct, so only the key
comparison is ever consulted. -/
def pairLe (p q : String × List String) : Prop := pyStrLe p.1 q.1

instance : DecidableRel pairLe :=
  fun p q => inferInstanceAs (Decidable (pyStrLe p.1 q.1))

/-- One extraction record as the normalizer sees it. `none` in an optional
field models the attribute being absent on the Python object (so that
`getattr`'s default applies); `strRepr` models `str(e)`, the default used
when `extraction_text` is absent. -/
structure Extraction where
  extraction_class : Option String
  extraction_text : Option String
  strRepr : String
  attributes : List (String × String)
deriving DecidableEq

/-- `getattr(e, "extraction_class", "fact")`. -/
def classOf (e : Extraction) : String :=
  e.extraction_class.getD "fact"

/-- `getattr(e, "extraction_text", str(e)).strip()`. -/
def textOf (e : Extraction) : String :=
  pyStrip (e.extraction_text.getD e.strRepr)

/-- The guard `if not text: continue`: a record is kept iff its stripped
text is non-empty. -/
def kept (e : Extraction) : Bool :=
  textOf e != ""

/-- `by_class.setdefault(cls, []).append(text)` on an association list that
keeps Python's dict insertion order: append to the first entry with this key,
or add a new entry at the end. -/
def addToDict : List (String × List String) → String → String → List (String × List String)
  | [], cls, t => [(cls, [t])]
  | (k, v) :: rest, cls, t =>
    if k = cls then (k, v ++ [t]) :: rest else (k, v) :: addToDict rest cls t

/-- The grouping loop of `flatten_extractions` (lines 99-104). -/
def byClass (recs : List Extraction) : List (String × List String) :=
  recs.foldl (fun d e => if kept e then addToDict d (classOf e) (textOf e) else d) []

/-- `by_class.get(k)` with the falsy check folded in: a missing key and an
empty list are both reported as `[]` (every stored list is non-empty). -/
def dictGet (d : List (String × List String)) (k : String) : List String :=
  match d.find? (fun p => p.1 = k) with
  | some p => p.2
  | none => []

/-- The three canonical labels with privileged section placement. -/
def CANONICAL : List String := ["summary", "key_point", "fact"]

/-- `"- " + t`. -/
def bullet (t : String) : String := "- " ++ t

/-- `cls.replace('_', ' ').title()`, the section header of a non-canonical
label. -/
def titleHeader (cls : String) : String :=
  pyTitle (pyReplaceUnderscores cls)

/-- The `parts` list of `flatten_extractions` (lines 105-115): the three
canonical sections in fixed order when non-empty, then one section per
remaining key of the sorted dict items. -/
def flattenParts (recs : List Extraction) : List String :=
  let d := byClass recs
  let parts1 :=
    if dictGet d "summary" ≠ [] then
      ["Summary:\n" ++ String.intercalate "\n" (dictGet d "summary")]
    else []
  let parts2 := parts1 ++
    (if dictGet d "key_point" ≠ [] then
      ["Key points:\n" ++ String.intercalate "\n" ((dictGet d "key_point").map bullet)]
    else [])
  let parts3 := parts2 ++
    (if dictGet d "fact" ≠ [] then
      ["Facts:\n" ++ String.intercalate "\n" ((dictGet d "fact").map bullet)]
    else [])
  parts3 ++ (List.insertionSort pairLe d).filterMap (fun p =>
    if p.1 ∈ CANONICAL then none
    else some (titleHeader p.1 ++ ":\n" ++ String.intercalate "\n" (p.2.map bullet)))

/-- `flatten_extractions(result)` (lines 94-116). `none` models a result
without an `extractions` attribute; the empty list is the falsy
`result.extractions`. -/
def flattenExtractions : Option (List Extraction) → String
  | none => ""
  | some recs =>
    if recs = [] then ""
    else
      let parts := flattenParts recs
      if parts = [] then "" else String.intercalate "\n\n" parts

/-- The process environment as the script reads it: the two recognized
API-key variables, `none` when unset. -/
structure Env where
  langextract_api_key : Option String
  google_api_key : Option String
deriving DecidableEq

/-- `__get_env_key` (lines 89-91):
`(os.environ.get("LANGEXTRACT_API_KEY") or os.environ.get("GOOGLE_API_KEY") or "").strip()`.
The `or` chain takes the first truthy (non-empty, untrimmed) value; only the
chain's winner is stripped. -/
def getEnvKey (env : Env) : String :=
  pyStrip (if env.langextract_api_key.getD "" ≠ "" then env.langextract_api_key.getD ""
           else env.google_api_key.getD "")

/-- The env-reading policy as the specification words it ("first non-empty
wins, surrounding whitespace trimmed"): each variable is trimmed and the
first one that is non-empty after trimming wins. Kept separate from
`getEnvKey` so the two can be compared. -/
def specEnvKey (env : Env) : String :=
  if pyStrip (env.langextract_api_key.getD "") ≠ "" then
    pyStrip (env.langextract_api_key.getD "")
  else pyStrip (env.google_api_key.getD "")

/-- The fixed instructional prompt (lines 31-35, after `textwrap.dedent`). -/
def promptDescription : String :=
  "Extract structured information from the following web page or document text.\nUse exact wording from the text where possible. Do not paraphrase heavily.\nProvide: a short summary, key points (bullets), and important facts or entities.\nOrder extractions by appearance. Do not overlap or duplicate."

/-- `lx.data.ExampleData`: a worked example text with its extractions. -/
structure ExampleData where
  text : String
  extractions : List Extraction
deriving DecidableEq

/-- The single worked example supplied to the engine (lines 37-58). -/
def workedExamples : List ExampleData :=
  [ExampleData.mk
    "John is a Data Engineer at Acme. He works on Python and SQL. He has 3 years of experience."
    [Extraction.mk (some "summary")
      (some "John is a Data Engineer at Acme with 3 years of experience.")
      "" [("role", "Data Engineer"), ("company", "Acme")],
     Extraction.mk (some "key_point") (some "Works on Python and SQL")
      "" [("skills", "Python, SQL")],
     Extraction.mk (some "fact") (some "3 years of experience")
      "" [("metric", "experience")]]]

/-- The keyword arguments of the `lx.extract` call: `none` in an optional
field means the key is absent from the dict (engine defaults apply). -/
structure ExtractKwargs where
  text_or_documents : String
  prompt_description : String
  examples : List ExampleData
  model_id : String
  model_url : Option String
  fence_output : Option Bool
  use_schema_constraints : Option Bool
deriving DecidableEq

/-- Lines 60-71: the kwargs dict is built for the hosted model
`gemini-2.5-flash`, then overridden with the local backend parameters when
`__get_env_key()` is falsy. -/
def buildExtractKwargs (raw : String) (env : Env) : ExtractKwargs :=
  if getEnvKey env = "" then
    ExtractKwargs.mk (pySlice raw 200000) promptDescription workedExamples
      "gemma2:2b" (some "http://localhost:11434") (some false) (some false)
  else
    ExtractKwargs.mk (pySlice raw 200000) promptDescription workedExamples
      "gemini-2.5-flash" none none none

/-- What a successful `lx.extract` call can return: one annotated document,
or a list of them for a multi-document call. -/
inductive EngineOut where
  | doc : Option (List Extraction) → EngineOut
  | docs : List (Option (List Extraction)) → EngineOut
deriving DecidableEq

/-- Lines 80-81: `if isinstance(result, list) and result: result = result[0]`.
An empty list is falsy, stays a list, and then has no `extractions`
attribute, which `flattenExtractions` models as `none`. -/
def firstDocument : EngineOut → Option (List Extraction)
  | .doc r => r
  | .docs [] => none
  | .docs (r :: _) => r

/-- The observable effect of one run of the script: the exit code (0 when
`main` returns normally), the text written to each stream, and how many
times the engine was invoked. -/
structure RunOutput where
  exitCode : Nat
  stdoutText : String
  stderrText : String
  engineCalls : Nat
deriving DecidableEq

/-- `main()` (lines 18-86) with its effects made explicit: standard input
and the environment are arguments, the external engine is an oracle that
either returns a result or raises with a message, and the returned record
collects the exit code and both output streams. The `langextract` import is
assumed to succeed. (The name `main` is reserved by Lean for the IO entry
point, hence `runMain`.) -/
def runMain (stdin : String) (env : Env) (engine : ExtractKwargs → Except String EngineOut) :
    RunOutput :=
  let raw := pyStrip stdin
  if raw = "" then RunOutput.mk 1 "" "extract_structured: no input\n" 0
  else
    match engine (buildExtractKwargs raw env) with
    | .error msg =>
      RunOutput.mk 1 "" ("extract_structured: extraction failed: " ++ msg ++ "\n") 1
    | .ok engineOut =>
      let out := flattenExtractions (firstDocument engineOut)
      if pyStrip out = "" then RunOutput.mk 0 (pySlice raw 50000) "" 1
      else RunOutput.mk 0 out "" 1

/-- Specification-side view of one group: the texts of the records with this
label, trimmed, in their original relative order, records with blank trimmed
text excluded. -/
def groupTexts (recs : List Extraction) (lbl : String) : List String :=
  recs.filterMap (fun e =>
    if kept e && (classOf e == lbl) then some (textOf e) else none)

/-- Dict-key insertion: a new key goes to the end, an existing key moves
nothing (Python dict insertion order). -/
def insertKey (acc : List String) (l : String) : List String :=
  if l ∈ acc then acc else acc ++ [l]

/-- The labels that end up as keys of `by_class`, in first-appearance order
among the kept records. -/
def keysOf (recs : List Extraction) : List String :=
  ((recs.filter kept).map classOf).foldl insertKey []

/-- The non-canonical labels present, in first-appearance order. -/
def othersOf (recs : List Extraction) : List String :=
  (keysOf recs).filter (fun l => decide (l ∉ CANONICAL))

/-- The non-canonical labels present, in Python's sorted (lexicographic)
order. -/
def sortedOthers (recs : List Extraction) : List String :=
  List.insertionSort pyStrLe (othersOf recs)

/-- The section emitted for a non-canonical label. -/
def otherSection (recs : List Extraction) (l : String) : String :=
  titleHeader l ++ ":\n" ++ String.intercalate "\n" ((groupTexts recs l).map bullet)

/-- The emitted parts as the specification describes them: canonical
sections in fixed precedence, each only if its group is non-empty, then the
remaining labels' sections in lexicographic label order. -/
def partsSpec (recs : List Extraction) : List String :=
  (if groupTexts recs "summary" ≠ [] then
    ["Summary:\n" ++ String.intercalate "\n" (groupTexts recs "summary")]
  else []) ++
  (if groupTexts recs "key_point" ≠ [] then
    ["Key points:\n" ++ String.intercalate "\n" ((groupTexts recs "key_point").map bullet)]
  else []) ++
  (if groupTexts recs "fact" ≠ [] then
    ["Facts:\n" ++ String.intercalate "\n" ((groupTexts recs "fact").map bullet)]
  else []) ++
  (sortedOthers recs).map (otherSection recs)

/-- The labels of the emitted sections, in emission order. -/
def sectionLabels (recs : List Extraction) : List String :=
  (if groupTexts recs "summary" ≠ [] then ["summary"] else []) ++
  (if groupTexts recs "key_point" ≠ [] then ["key_point"] else []) ++
  (if groupTexts recs "fact" ≠ [] then ["fact"] else []) ++
  sortedOthers recs

theorem pyLeb_total : ∀ as bs : List Char, pyLeb as bs = true ∨ pyLeb bs as = true
  | [], _ => Or.inl rfl
  | _ :: _, [] => Or.inr rfl
  | a :: as, b :: bs => by
    rcases lt_trichotomy a b with h | h | h
    · left; simp [pyLeb, h]
    · subst h
      simp only [pyLeb, lt_irrefl, if_false]
      exact pyLeb_total as bs
    · right; simp [pyLeb, h]

theorem pyLeb_antisymm : ∀ as bs : List Char,
    pyLeb as bs = true → pyLeb bs as = true → as = bs
  | [], [], _, _ => rfl
  | [], _ :: _, _, h => by simp [pyLeb] at h
  | _ :: _, [], h, _ => by simp [pyLeb] at h
  | a :: as, b :: bs, h₁, h₂ => by
    rcases lt_trichotomy a b with h | h | h
    · simp [pyLeb, h, asymm h] at h₂
    · subst h
      simp only [pyLeb, lt_irrefl, if_false] at h₁ h₂
      exact congrArg (a :: ·) (pyLeb_antisymm as bs h₁ h₂)
    · simp [pyLeb, h, asymm h] at h₁

theorem pyLeb_trans : ∀ as bs cs : List Char,
    pyLeb as bs = true → pyLeb bs cs = true → pyLeb as cs = true
  | [], _, _, _, _ => rfl
  | _ :: _, [], _, h, _ => by simp [pyLeb] at h
  | _ :: _, _ :: _, [], _, h => by simp [pyLeb] at h
  | a :: as, b :: bs, c :: cs, h₁, h₂ => by
    rcases lt_trichotomy a b with hab | hab | hab
    · rcases lt_trichotomy b c with hbc | hbc | hbc
      · simp [pyLeb, lt_trans hab hbc]
      · subst hbc; simp [pyLeb, hab]
      · simp [pyLeb, hbc, asymm hbc] at h₂
    · subst hab
      simp only [pyLeb, lt_irrefl, if_false] at h₁
      rcases lt_trichotomy a c with hac | hac | hac
      · simp [pyLeb, hac]
      · subst hac
        simp only [pyLeb, lt_irrefl, if_false] at h₂ ⊢
        exact pyLeb_trans as bs cs h₁ h₂
      · simp [pyLeb, hac, asymm hac] at h₂
    · simp [pyLeb, hab, asymm hab] at h₁

instance : IsTotal String pyStrLe :=
  ⟨fun s t => pyLeb_total s.data t.data⟩

instance : IsTrans String pyStrLe :=
  ⟨fun s t u => pyLeb_trans s.data t.data u.data⟩

instance : IsAntisymm String pyStrLe :=
  ⟨fun s t h₁ h₂ => String.ext (pyLeb_antisymm s.data t.data h₁ h₂)⟩

theorem dictGet_nil (c : String) : dictGet [] c = [] := rfl

theorem dictGet_cons (k : String) (v : List String) (d : List (String × List String))
    (c : String) : dictGet ((k, v) :: d) c = if k = c then v else dictGet d c := by
  by_cases h : k = c
  · subst h; simp [dictGet, List.find?]
  · simp [dictGet, List.find?, h]

theorem dictGet_addToDict_self (c t : String) :
    ∀ d : List (String × List String), dictGet (addToDict d c t) c = dictGet d c ++ [t]
  | [] => by simp [addToDict, dictGet_cons, dictGet_nil]
  | (k, v) :: rest => by
    by_cases h : k = c
    · subst h; simp [addToDict, dictGet_cons]
    · simp only [addToDict, if_neg h]
      rw [dictGet_cons, if_neg h, dictGet_cons, if_neg h,
        dictGet_addToDict_self c t rest]

theorem dictGet_addToDict_ne (c c' t : String) (h : c' ≠ c) :
    ∀ d : List (String × List String), dictGet (addToDict d c t) c' = dictGet d c'
  | [] => by
    show dictGet [(c, [t])] c' = dictGet [] c'
    rw [dictGet_cons, if_neg (fun hh => h hh.symm)]
  | (k, v) :: rest => by
    by_cases hk : k = c
    · subst hk
      have ha : addToDict ((k, v) :: rest) k t = (k, v ++ [t]) :: rest := by
        simp [addToDict]
      rw [ha, dictGet_cons, dictGet_cons, if_neg (fun hh => h hh.symm),
        if_neg (fun hh => h hh.symm)]
    · simp only [addToDict, if_neg hk]
      rw [dictGet_cons, dictGet_cons, dictGet_addToDict_ne c c' t h rest]

theorem keys_addToDict (c t : String) :
    ∀ d : List (String × List String),
      (addToDict d c t).map Prod.fst = insertKey (d.map Prod.fst) c
  | [] => by simp [addToDict, insertKey]
  | (k, v) :: rest => by
    by_cases h : k = c
    · subst h; simp [addToDict, insertKey]
    · simp only [addToDict, if_neg h, List.map_cons, keys_addToDict c t rest, insertKey]
      by_cases hm : c ∈ rest.map Prod.fst
      · simp [hm, Ne.symm h]
      · simp [hm, Ne.symm h]

theorem groupTexts_cons (e : Extraction) (rs : List Extraction) (l : String) :
    groupTexts (e :: rs) l =
      if kept e = true ∧ classOf e = l then textOf e :: groupTexts rs l
      else groupTexts rs l := by
  by_cases hk : kept e = true
  · by_cases hc : classOf e = l
    · simp [groupTexts, hk, hc]
    · simp [groupTexts, hk, hc]
  · simp [groupTexts, hk]

theorem dictGet_foldl (recs : List Extraction) : ∀ (d : List (String × List String)) (l : String),
    dictGet (List.foldl (fun d e => if kept e then addToDict d (classOf e) (textOf e) else d)
        d recs) l = dictGet d l ++ groupTexts recs l := by
  induction recs with
  | nil => intro d l; simp [groupTexts]
  | cons e rs ih =>
    intro d l
    simp only [List.foldl_cons]
    by_cases hk : kept e = true
    · by_cases hc : classOf e = l
      · rw [if_pos hk, ih, hc, dictGet_addToDict_self, groupTexts_cons,
          if_pos ⟨hk, hc⟩, List.append_assoc, List.singleton_append]
      · rw [if_pos hk, ih, dictGet_addToDict_ne _ _ _ (fun hh => hc hh.symm),
          groupTexts_cons, if_neg (fun hh => hc hh.2)]
    · rw [if_neg hk, ih, groupTexts_cons, if_neg (fun hh => hk hh.1)]

theorem keys_foldl (recs : List Extraction) : ∀ d : List (String × List String),
    (List.foldl (fun d e => if kept e then addToDict d (classOf e) (textOf e) else d)
        d recs).map Prod.fst =
      List.foldl insertKey (d.map Prod.fst) ((recs.filter kept).map classOf) := by
  induction recs with
  | nil => intro d; simp
  | cons e rs ih =>
    intro d
    simp only [List.foldl_cons]
    by_cases hk : kept e = true
    · rw [if_pos hk, ih, List.filter_cons_of_pos hk, List.map_cons, List.foldl_cons,
        keys_addToDict]
    · rw [if_neg hk, ih, List.filter_cons_of_neg (by simpa using hk)]

theorem mem_insertKey (acc : List String) (l x : String) :
    x ∈ insertKey acc l ↔ x ∈ acc ∨ x = l := by
  by_cases h : l ∈ acc
  · simp only [insertKey, if_pos h]
    constructor
    · exact Or.inl
    · rintro (hx | rfl)
      · exact hx
      · exact h
  · simp [insertKey, if_neg h]

theorem mem_foldl_insertKey (ls : List String) : ∀ (acc : List String) (x : String),
    x ∈ List.foldl insertKey acc ls ↔ x ∈ acc ∨ x ∈ ls := by
  induction ls with
  | nil => intro acc x; simp
  | cons l ls ih =>
    intro acc x
    rw [List.foldl_cons, ih, mem_insertKey]
    simp [or_assoc]

theorem nodup_foldl_insertKey (ls : List String) : ∀ acc : List String,
    acc.Nodup → (List.foldl insertKey acc ls).Nodup := by
  induction ls with
  | nil => intro acc h; simpa using h
  | cons l ls ih =>
    intro acc h
    rw [List.foldl_cons]
    refine ih _ ?_
    by_cases hm : l ∈ acc
    · simpa [insertKey, if_pos hm] using h
    · simp [insertKey, if_neg hm, List.nodup_append, h, hm]

theorem byClass_keys (recs : List Extraction) :
    (byClass recs).map Prod.fst = keysOf recs := by
  rw [byClass, keys_foldl recs, keysOf]
  rfl

theorem dictGet_byClass (recs : List Extraction) (l : String) :
    dictGet (byClass recs) l = groupTexts recs l := by
  rw [byClass, dictGet_foldl recs]
  simp [dictGet]

theorem keysOf_nodup (recs : List Extraction) : (keysOf recs).Nodup :=
  nodup_foldl_insertKey _ _ List.nodup_nil

theorem mem_keysOf (recs : List Extraction) (l : String) :
    l ∈ keysOf recs ↔ ∃ e ∈ recs, kept e = true ∧ classOf e = l := by
  rw [keysOf, mem_foldl_insertKey]
  simp only [List.not_mem_nil, false_or, List.mem_map, List.mem_filter]
  constructor
  · rintro ⟨e, ⟨he, hk⟩, hc⟩
    exact ⟨e, he, hk, hc⟩
  · rintro ⟨e, he, hk, hc⟩
    exact ⟨e, ⟨he, hk⟩, hc⟩

theorem groupTexts_ne_nil_iff (recs : List Extraction) (l : String) :
    groupTexts recs l ≠ [] ↔ ∃ e ∈ recs, kept e = true ∧ classOf e = l := by
  rw [Ne, groupTexts, List.filterMap_eq_nil_iff]
  push_neg
  constructor
  · rintro ⟨e, he, hne⟩
    by_cases hk : kept e = true
    · by_cases hc : classOf e = l
      · exact ⟨e, he, hk, hc⟩
      · exact absurd (by simp [hk, hc]) hne
    · exact absurd (by simp [hk]) hne
  · rintro ⟨e, he, hk, hc⟩
    exact ⟨e, he, by simp [hk, hc]⟩

theorem dictGet_of_mem : ∀ d : List (String × List String),
    (d.map Prod.fst).Nodup → ∀ p ∈ d, dictGet d p.1 = p.2
  | [], _, p, hp => absurd hp (List.not_mem_nil p)
  | (k, v) :: rest, hnd, p, hp => by
    rw [List.map_cons, List.nodup_cons] at hnd
    rcases List.mem_cons.1 hp with rfl | hmem
    · rw [dictGet_cons, if_pos rfl]
    · have hne : k ≠ p.1 := fun hh =>
        hnd.1 (by rw [hh]; exact List.mem_map.2 ⟨p, hmem, rfl⟩)
      rw [dictGet_cons, if_neg hne, dictGet_of_mem rest hnd.2 p hmem]

theorem pairs_eq_map_keys (g : String → List String) :
    ∀ dp : List (String × List String), (∀ p ∈ dp, p.2 = g p.1) →
      dp = (dp.map Prod.fst).map (fun l => (l, g l))
  | [], _ => rfl
  | p :: rest, h => by
    obtain ⟨a, b⟩ := p
    have hp : b = g a := h (a, b) (List.mem_cons_self _ _)
    rw [List.map_cons, List.map_cons,
      ← pairs_eq_map_keys g rest (fun q hq => h q (List.mem_cons_of_mem _ hq)), hp]

theorem insertionSort_byClass (recs : List Extraction) :
    List.insertionSort pairLe (byClass recs) =
      (List.insertionSort pyStrLe (keysOf recs)).map (fun l => (l, groupTexts recs l)) := by
  have hnd : ((byClass recs).map Prod.fst).Nodup := by
    rw [byClass_keys]; exact keysOf_nodup recs
  have hmem : ∀ p ∈ List.insertionSort pairLe (byClass recs), p.2 = groupTexts recs p.1 := by
    intro p hp
    have hp' : p ∈ byClass recs := (List.perm_insertionSort pairLe _).mem_iff.1 hp
    rw [← dictGet_of_mem (byClass recs) hnd p hp', dictGet_byClass]
  calc List.insertionSort pairLe (byClass recs)
      = ((List.insertionSort pairLe (byClass recs)).map Prod.fst).map
          (fun l => (l, groupTexts recs l)) := pairs_eq_map_keys _ _ hmem
    _ = (List.insertionSort pyStrLe ((byClass recs).map Prod.fst)).map
          (fun l => (l, groupTexts recs l)) := by
        rw [List.map_insertionSort pairLe pyStrLe Prod.fst _ (fun a _ b _ => Iff.rfl)]
    _ = (List.insertionSort pyStrLe (keysOf recs)).map (fun l => (l, groupTexts recs l)) := by
        rw [byClass_keys]

theorem filter_insertionSort (p : String → Bool) (l : List String) :
    (List.insertionSort pyStrLe l).filter p = List.insertionSort pyStrLe (l.filter p) := by
  have h₁ : List.Sorted pyStrLe ((List.insertionSort pyStrLe l).filter p) :=
    (List.sorted_insertionSort pyStrLe l).filter p
  have h₂ : List.Sorted pyStrLe (List.insertionSort pyStrLe (l.filter p)) :=
    List.sorted_insertionSort pyStrLe _
  have hperm : List.Perm ((List.insertionSort pyStrLe l).filter p)
      (List.insertionSort pyStrLe (l.filter p)) :=
    (((List.perm_insertionSort pyStrLe l).filter p).trans
      (List.perm_insertionSort pyStrLe (l.filter p)).symm)
  exact List.eq_of_perm_of_sorted hperm h₁ h₂

theorem filterMap_canonical (g : String → String) :
    ∀ l : List String,
      (l.filterMap fun x => if x ∈ CANONICAL then none else some (g x)) =
        (l.filter fun x => decide (x ∉ CANONICAL)).map g
  | [] => rfl
  | a :: l => by
    by_cases hp : a ∈ CANONICAL
    · simp [hp, filterMap_canonical g l]
    · simp [hp, filterMap_canonical g l]

theorem flattenParts_eq (recs : List Extraction) : flattenParts recs = partsSpec recs := by
  rw [flattenParts, partsSpec]
  rw [dictGet_byClass, dictGet_byClass, dictGet_byClass, insertionSort_byClass]
  rw [List.filterMap_map]
  have hcomp : ((fun p : String × List String =>
      if p.1 ∈ CANONICAL then none
      else some (titleHeader p.1 ++ ":\n" ++ String.intercalate "\n" (p.2.map bullet))) ∘
        (fun l => (l, groupTexts recs l))) =
      fun l => if l ∈ CANONICAL then none else some (otherSection recs l) :=
    funext fun l => rfl
  rw [hcomp, filterMap_canonical (otherSection recs), filter_insertionSort,
    ← othersOf, ← sortedOthers]

theorem flattenExtractions_some (recs : List Extraction) :
    flattenExtractions (some recs) = String.intercalate "\n\n" (partsSpec recs) := by
  by_cases h : recs = []
  · subst h; decide
  · show (if recs = [] then ""
        else if flattenParts recs = [] then ""
        else String.intercalate "\n\n" (flattenParts recs)) =
      String.intercalate "\n\n" (partsSpec recs)
    rw [if_neg h, ← flattenParts_eq]
    by_cases hp : flattenParts recs = []
    · rw [if_pos hp, hp]; rfl
    · rw [if_neg hp]

theorem keysOf_perm {recs recs' : List Extraction} (h : List.Perm recs recs') :
    List.Perm (keysOf recs) (keysOf recs') :=
  (List.perm_ext_iff_of_nodup (keysOf_nodup recs) (keysOf_nodup recs')).2 fun l => by
    rw [mem_keysOf, mem_keysOf]
    constructor
    · rintro ⟨e, he, hk⟩; exact ⟨e, h.mem_iff.1 he, hk⟩
    · rintro ⟨e, he, hk⟩; exact ⟨e, h.mem_iff.2 he, hk⟩

theorem sortedOthers_perm_eq {recs recs' : List Extraction} (h : List.Perm recs recs') :
    sortedOthers recs = sortedOthers recs' := by
  rw [sortedOthers, sortedOthers]
  refine List.eq_of_perm_of_sorted ?_ (List.sorted_insertionSort _ _)
    (List.sorted_insertionSort _ _)
  refine (List.perm_insertionSort _ _).trans (List.Perm.trans ?_
    (List.perm_insertionSort _ _).symm)
  exact (keysOf_perm h).filter _

theorem groupTexts_eq_nil_iff_perm {recs recs' : List Extraction}
    (h : List.Perm recs recs') (l : String) :
    groupTexts recs l = [] ↔ groupTexts recs' l = [] := by
  constructor
  · intro he
    by_contra hne
    obtain ⟨e, hmem, hk⟩ := (groupTexts_ne_nil_iff recs' l).1 hne
    exact (groupTexts_ne_nil_iff recs l).2 ⟨e, h.mem_iff.2 hmem, hk⟩ he
  · intro he
    by_contra hne
    obtain ⟨e, hmem, hk⟩ := (groupTexts_ne_nil_iff recs l).1 hne
    exact (groupTexts_ne_nil_iff recs' l).2 ⟨e, h.mem_iff.1 hmem, hk⟩ he

theorem sectionLabels_perm_eq {recs recs' : List Extraction} (h : List.Perm recs recs') :
    sectionLabels recs = sectionLabels recs' := by
  rw [sectionLabels, sectionLabels, sortedOthers_perm_eq h,
    if_congr (not_congr (groupTexts_eq_nil_iff_perm h "summary")) rfl rfl,
    if_congr (not_congr (groupTexts_eq_nil_iff_perm h "key_point")) rfl rfl,
    if_congr (not_congr (groupTexts_eq_nil_iff_perm h "fact")) rfl rfl]

/-- Claim C6: for every standard input that is empty or whitespace-only
after trimming, the driver writes a diagnostic to the error stream, exits
with a non-zero status, and writes nothing to standard output (and never
calls the engine). -/
theorem empty_input_exits_nonzero (stdin : String) (env : Env)
    (engine : ExtractKwargs → Except String EngineOut) (h : pyStrip stdin = "") :
    runMain stdin env engine = RunOutput.mk 1 "" "extract_structured: no input\n" 0 ∧
    (runMain stdin env engine).stdoutText = "" ∧
    (runMain stdin env engine).exitCode ≠ 0 ∧
    (runMain stdin env engine).stderrText ≠ "" := by
  have hrm : runMain stdin env engine =
      RunOutput.mk 1 "" "extract_structured: no input\n" 0 := by
    simp [runMain, h]
  exact ⟨hrm, by rw [hrm], by rw [hrm]; decide, by rw [hrm]; decide⟩

theorem empty_input_exits_nonzero_witness :
    runMain " \t\n " (Env.mk none none) (fun _ => Except.error "unused") =
      RunOutput.mk 1 "" "extract_structured: no input\n" 0 :=
  (empty_input_exits_nonzero " \t\n " (Env.mk none none)
    (fun _ => Except.error "unused") (by decide)).1

/-- Claim C7: for every non-empty input, if the engine raises, the driver
writes a diagnostic including the underlying message to the error stream,
exits with status 1, writes nothing to standard output, and calls the
engine exactly once (no retry). -/
theorem engine_failure_exits_nonzero (stdin : String) (env : Env)
    (engine : ExtractKwargs → Except String EngineOut) (msg : String)
    (h₁ : pyStrip stdin ≠ "")
    (h₂ : engine (buildExtractKwargs (pyStrip stdin) env) = Except.error msg) :
    runMain stdin env engine =
      RunOutput.mk 1 "" ("extract_structured: extraction failed: " ++ msg ++ "\n") 1 ∧
    List.IsInfix msg.data (runMain stdin env engine).stderrText.data := by
  have hrm : runMain stdin env engine =
      RunOutput.mk 1 "" ("extract_structured: extraction failed: " ++ msg ++ "\n") 1 := by
    simp [runMain, h₁, h₂]
  refine ⟨hrm, ?_⟩
  rw [hrm]
  refine ⟨"extract_structured: extraction failed: ".data, "\n".data, ?_⟩
  simp [String.data_append, List.append_assoc]

theorem engine_failure_exits_nonzero_witness :
    runMain "doc" (Env.mk none none) (fun _ => Except.error "boom") =
      RunOutput.mk 1 "" "extract_structured: extraction failed: boom\n" 1 := by
  have h := (engine_failure_exits_nonzero "doc" (Env.mk none none)
    (fun _ => Except.error "boom") "boom" (by decide) rfl).1
  rw [h]; decide

/-- Claim C9: the call parameters always carry the first 200,000 characters
of the (stripped) input: at most 200,000 characters are sent, inputs of at
most 200,000 characters are sent unchanged, and the text sent is exactly
the 200,000-character prefix. -/
theorem input_truncated_to_200k (raw : String) (env : Env) :
    (buildExtractKwargs raw env).text_or_documents = pySlice raw 200000 ∧
    (buildExtractKwargs raw env).text_or_documents.length ≤ 200000 ∧
    (raw.length ≤ 200000 → (buildExtractKwargs raw env).text_or_documents = raw) ∧
    (buildExtractKwargs raw env).text_or_documents.data = raw.data.take 200000 := by
  have hb : (buildExtractKwargs raw env).text_or_documents = pySlice raw 200000 := by
    rw [buildExtractKwargs]
    by_cases h : getEnvKey env = ""
    · rw [if_pos h]
    · rw [if_neg h]
  refine ⟨hb, ?_, ?_, ?_⟩
  · rw [hb]
    show (String.mk (raw.data.take 200000)).length ≤ 200000
    rw [String.length_mk, List.length_take]
    exact min_le_left _ _
  · intro hlen
    rw [hb]
    show String.mk (raw.data.take 200000) = raw
    rw [List.take_of_length_le hlen]
  · rw [hb]; rfl

theorem input_truncated_to_200k_witness :
    ("abc" : String).length ≤ 200000 ∧
    (buildExtractKwargs "abc" (Env.mk none none)).text_or_documents = "abc" :=
  ⟨by decide, (input_truncated_to_200k "abc" (Env.mk none none)).2.2.1 (by decide)⟩

/-- Claim C3, counterexample: under the specification's reading of the
credential check ("first non-empty value wins after surrounding whitespace
is trimmed", modelled by `specEnvKey`), the environment
`LANGEXTRACT_API_KEY="   "`, `GOOGLE_API_KEY="real-key"` holds a credential,
yet the code (`getEnvKey`, a truthiness chain that strips only the winner)
sees none and selects the local backend parameters. -/
theorem backend_selection_counterexample :
    specEnvKey (Env.mk (some "   ") (some "real-key")) = "real-key" ∧
    getEnvKey (Env.mk (some "   ") (some "real-key")) = "" ∧
    ¬ (∀ (env : Env) (raw : String), specEnvKey env ≠ "" →
        (buildExtractKwargs raw env).model_id = "gemini-2.5-flash" ∧
        (buildExtractKwargs raw env).model_url = none) := by
  refine ⟨by decide, by decide, ?_⟩
  intro hall
  have h := hall (Env.mk (some "   ") (some "real-key")) "text" (by decide)
  have hm : (buildExtractKwargs "text" (Env.mk (some "   ") (some "real-key"))).model_id =
      "gemma2:2b" := by decide
  rw [hm] at h
  exact absurd h.1 (by decide)

/-- Claim C3, amended: the credential check takes the first of the two
variables whose raw (untrimmed) value is non-empty and then trims it, so a
whitespace-only first variable wins the chain, trims to empty, and counts
as no credential even when the second variable holds a key. When the
trimmed winner is non-empty the call parameters use the hosted model id
with no endpoint URL and no fencing/schema overrides; when it is empty they
use the local model id, the fixed local endpoint URL, fencing disabled and
schema constraints disabled. -/
theorem env_key_and_backend_params (env : Env) (raw : String) :
    (env.langextract_api_key.getD "" ≠ "" →
      getEnvKey env = pyStrip (env.langextract_api_key.getD "")) ∧
    (env.langextract_api_key.getD "" = "" →
      getEnvKey env = pyStrip (env.google_api_key.getD "")) ∧
    (getEnvKey env ≠ "" →
      buildExtractKwargs raw env = ExtractKwargs.mk (pySlice raw 200000)
        promptDescription workedExamples "gemini-2.5-flash" none none none) ∧
    (getEnvKey env = "" →
      buildExtractKwargs raw env = ExtractKwargs.mk (pySlice raw 200000)
        promptDescription workedExamples "gemma2:2b" (some "http://localhost:11434")
        (some false) (some false)) := by
  refine ⟨?_, ?_, ?_, ?_⟩
  · intro h; rw [getEnvKey, if_pos h]
  · intro h; rw [getEnvKey, if_neg (fun hc => hc h)]
  · intro h; rw [buildExtractKwargs, if_neg h]
  · intro h; rw [buildExtractKwargs, if_pos h]

theorem env_key_and_backend_params_witness :
    getEnvKey (Env.mk (some " k ") none) = pyStrip " k " ∧
    buildExtractKwargs "t" (Env.mk (some " k ") none) =
      ExtractKwargs.mk (pySlice "t" 200000) promptDescription workedExamples
        "gemini-2.5-flash" none none none :=
  ⟨(env_key_and_backend_params (Env.mk (some " k ") none) "t").1 (by decide),
   (env_key_and_backend_params (Env.mk (some " k ") none) "t").2.2.1 (by decide)⟩

/-- Claim C4: on non-empty (post-strip) input with a successful extraction,
a blank normalization result makes the driver write the first 50,000
characters of the stripped input verbatim; in every successful case the
text written to standard output is non-empty. -/
theorem fallback_emits_nonempty_output (stdin : String) (env : Env)
    (engine : ExtractKwargs → Except String EngineOut) (engineOut : EngineOut)
    (h₁ : pyStrip stdin ≠ "")
    (h₂ : engine (buildExtractKwargs (pyStrip stdin) env) = Except.ok engineOut) :
    (pyStrip (flattenExtractions (firstDocument engineOut)) = "" →
      runMain stdin env engine =
        RunOutput.mk 0 (pySlice (pyStrip stdin) 50000) "" 1) ∧
    (runMain stdin env engine).stdoutText ≠ "" := by
  have hrm : runMain stdin env engine =
      (if pyStrip (flattenExtractions (firstDocument engineOut)) = ""
       then RunOutput.mk 0 (pySlice (pyStrip stdin) 50000) "" 1
       else RunOutput.mk 0 (flattenExtractions (firstDocument engineOut)) "" 1) := by
    simp [runMain, h₁, h₂]
  constructor
  · intro hb; rw [hrm, if_pos hb]
  · rw [hrm]
    by_cases hb : pyStrip (flattenExtractions (firstDocument engineOut)) = ""
    · rw [if_pos hb]
      show pySlice (pyStrip stdin) 50000 ≠ ""
      intro hc
      apply h₁
      have hdat : (pyStrip stdin).data.take 50000 = [] := congrArg String.data hc
      rcases List.take_eq_nil_iff.1 hdat with h5 | hnil
      · exact absurd h5 (by decide)
      · exact String.ext hnil
    · rw [if_neg hb]
      show flattenExtractions (firstDocument engineOut) ≠ ""
      intro hc
      rw [hc] at hb
      exact hb rfl

theorem fallback_emits_nonempty_output_witness :
    runMain "hi" (Env.mk none none)
        (fun _ => Except.ok (EngineOut.doc
          (some [Extraction.mk (some "fact") (some "   ") "" []]))) =
      RunOutput.mk 0 (pySlice (pyStrip "hi") 50000) "" 1 ∧
    (runMain "hi" (Env.mk none none)
        (fun _ => Except.ok (EngineOut.doc
          (some [Extraction.mk (some "fact") (some "   ") "" []])))).stdoutText ≠ "" := by
  have h := fallback_emits_nonempty_output "hi" (Env.mk none none)
    (fun _ => Except.ok (EngineOut.doc
      (some [Extraction.mk (some "fact") (some "   ") "" []])))
    (EngineOut.doc (some [Extraction.mk (some "fact") (some "   ") "" []]))
    (by decide) rfl
  exact ⟨h.1 (by decide), h.2⟩

/-- Claim C5: normalization never fails; an absent extractions attribute or
an empty extractions sequence yields exactly the empty string, and records
whose data is missing or blank only shrink the output, with the all-blank
case again yielding the empty string. (Totality holds by construction: the
embedding is a total Lean function over results with absent fields.) -/
theorem flatten_total_empty_cases :
    flattenExtractions none = "" ∧
    flattenExtractions (some []) = "" ∧
    ∀ recs : List Extraction, (∀ e ∈ recs, textOf e = "") →
      flattenExtractions (some recs) = "" := by
  refine ⟨rfl, rfl, ?_⟩
  intro recs hall
  rw [flattenExtractions_some]
  have hg : ∀ l, groupTexts recs l = [] := by
    intro l
    rw [groupTexts, List.filterMap_eq_nil_iff]
    intro e he
    have hk : kept e = false := by simp [kept, hall e he]
    simp [hk]
  have hfilter : recs.filter kept = [] := by
    rw [List.filter_eq_nil_iff]
    intro e he
    simp [kept, hall e he]
  have hkeys : keysOf recs = [] := by
    rw [keysOf, hfilter]
    rfl
  rw [partsSpec, hg, hg, hg, sortedOthers, othersOf, hkeys]
  simp
  rfl

theorem flatten_total_empty_cases_witness :
    flattenExtractions (some [Extraction.mk (some "fact") (some "   ") "" [],
      Extraction.mk none none "" []]) = "" :=
  flatten_total_empty_cases.2.2
    [Extraction.mk (some "fact") (some "   ") "" [], Extraction.mk none none "" []]
    (by decide)

/-- Claim C1: the emitted sections follow a fixed order: the canonical
Summary, Key points, Facts sections lead in that relative order (each
present only when its group is non-empty), every other label follows sorted
lexicographically on the raw label string, and this section order does not
depend on the order of the input extraction records. -/
theorem flatten_section_order (recs recs' : List Extraction)
    (h : List.Perm recs recs') :
    flattenParts recs = partsSpec recs ∧
    List.Sorted pyStrLe (sortedOthers recs) ∧
    (∀ l ∈ sortedOthers recs, l ∉ CANONICAL) ∧
    sectionLabels recs = sectionLabels recs' := by
  refine ⟨flattenParts_eq recs, List.sorted_insertionSort pyStrLe (othersOf recs), ?_,
    sectionLabels_perm_eq h⟩
  intro l hl
  have hl' : l ∈ othersOf recs := (List.perm_insertionSort pyStrLe _).mem_iff.1 hl
  have := (List.mem_filter.1 hl').2
  simpa using this

theorem flatten_section_order_witness :
    List.Perm
      [Extraction.mk (some "zebra") (some "z1") "" [],
       Extraction.mk (some "alpha") (some "a1") "" []]
      [Extraction.mk (some "alpha") (some "a1") "" [],
       Extraction.mk (some "zebra") (some "z1") "" []] ∧
    sectionLabels
        [Extraction.mk (some "zebra") (some "z1") "" [],
         Extraction.mk (some "alpha") (some "a1") "" []] =
      sectionLabels
        [Extraction.mk (some "alpha") (some "a1") "" [],
         Extraction.mk (some "zebra") (some "z1") "" []] ∧
    sectionLabels
        [Extraction.mk (some "zebra") (some "z1") "" [],
         Extraction.mk (some "alpha") (some "a1") "" []] = ["alpha", "zebra"] :=
  ⟨by decide,
   (flatten_section_order
     [Extraction.mk (some "zebra") (some "z1") "" [],
      Extraction.mk (some "alpha") (some "a1") "" []]
     [Extraction.mk (some "alpha") (some "a1") "" [],
      Extraction.mk (some "zebra") (some "z1") "" []] (by decide)).2.2.2,
   by decide⟩

/-- Claim C2: each section is a header line followed by its items; summary
texts appear on plain lines, every other section's items carry a `- `
prefix, non-canonical headers are the label with underscores replaced by
spaces and title-cased, and sections are joined by exactly one blank line;
in particular a single fact `Hello world` yields `Facts:\n- Hello world`. -/
theorem flatten_section_format :
    (flattenExtractions (some [Extraction.mk (some "fact") (some "Hello world") "" []]) =
      "Facts:\n- Hello world") ∧
    ∀ recs : List Extraction,
      (flattenExtractions (some recs) = String.intercalate "\n\n" (partsSpec recs)) ∧
      (groupTexts recs "summary" ≠ [] →
        ("Summary:\n" ++ String.intercalate "\n" (groupTexts recs "summary")) ∈
          flattenParts recs) ∧
      (∀ l : String, l ∉ CANONICAL → groupTexts recs l ≠ [] →
        (pyTitle (pyReplaceUnderscores l) ++ ":\n" ++
          String.intercalate "\n" ((groupTexts recs l).map bullet)) ∈
            flattenParts recs) := by
  refine ⟨by decide, fun recs => ⟨flattenExtractions_some recs, ?_, ?_⟩⟩
  · intro h
    rw [flattenParts_eq, partsSpec]
    refine List.mem_append_left _ (List.mem_append_left _ (List.mem_append_left _ ?_))
    rw [if_pos h]
    exact List.mem_singleton_self _
  · intro l hl hne
    rw [flattenParts_eq, partsSpec]
    refine List.mem_append_right _ ?_
    refine List.mem_map.2 ⟨l, ?_, rfl⟩
    rw [sortedOthers]
    refine (List.perm_insertionSort pyStrLe _).mem_iff.2 ?_
    rw [othersOf]
    refine List.mem_filter.2 ⟨?_, by simpa using hl⟩
    exact (mem_keysOf recs l).2 ((groupTexts_ne_nil_iff recs l).1 hne)

theorem flatten_section_format_witness :
    (groupTexts [Extraction.mk (some "summary") (some "s") "" [],
        Extraction.mk (some "weird_label") (some "w") "" []] "summary" ≠ []) ∧
    ("Summary:\n" ++ String.intercalate "\n"
        (groupTexts [Extraction.mk (some "summary") (some "s") "" [],
          Extraction.mk (some "weird_label") (some "w") "" []] "summary")) ∈
      flattenParts [Extraction.mk (some "summary") (some "s") "" [],
        Extraction.mk (some "weird_label") (some "w") "" []] ∧
    (pyTitle (pyReplaceUnderscores "weird_label") ++ ":\n" ++
        String.intercalate "\n"
          ((groupTexts [Extraction.mk (some "summary") (some "s") "" [],
            Extraction.mk (some "weird_label") (some "w") "" []]
              "weird_label").map bullet)) ∈
      flattenParts [Extraction.mk (some "summary") (some "s") "" [],
        Extraction.mk (some "weird_label") (some "w") "" []] :=
  ⟨by decide,
   (flatten_section_format.2 _).2.1 (by decide),
   (flatten_section_format.2 _).2.2 "weird_label" (by decide) (by decide)⟩

/-- Claim C8: grouping is stable and blank-skipping: the list stored for a
label is exactly the trimmed texts of that label's records in their
original relative order with blank-trimmed records excluded, and a label
whose group ends up empty produces no section. -/
theorem flatten_stable_grouping (recs : List Extraction) (lbl : String) :
    dictGet (byClass recs) lbl = groupTexts recs lbl ∧
    (groupTexts recs lbl = [] → lbl ∉ sectionLabels recs) := by
  refine ⟨dictGet_byClass recs lbl, ?_⟩
  intro h hmem
  rw [sectionLabels] at hmem
  rcases List.mem_append.1 hmem with h3 | hD
  · rcases List.mem_append.1 h3 with h2 | hC
    · rcases List.mem_append.1 h2 with hA | hB
      · by_cases hs : groupTexts recs "summary" ≠ []
        · rw [if_pos hs] at hA
          rw [List.mem_singleton.1 hA] at h
          exact hs h
        · rw [if_neg hs] at hA
          exact List.not_mem_nil _ hA
      · by_cases hs : groupTexts recs "key_point" ≠ []
        · rw [if_pos hs] at hB
          rw [List.mem_singleton.1 hB] at h
          exact hs h
        · rw [if_neg hs] at hB
          exact List.not_mem_nil _ hB
    · by_cases hs : groupTexts recs "fact" ≠ []
      · rw [if_pos hs] at hC
        rw [List.mem_singleton.1 hC] at h
        exact hs h
      · rw [if_neg hs] at hC
        exact List.not_mem_nil _ hC
  · have hl' : lbl ∈ othersOf recs := (List.perm_insertionSort pyStrLe _).mem_iff.1 hD
    have hk := (List.mem_filter.1 hl').1
    exact (groupTexts_ne_nil_iff recs lbl).2 ((mem_keysOf recs lbl).1 hk) h

theorem flatten_stable_grouping_witness :
    dictGet (byClass [Extraction.mk (some "ghost") (some "   ") "" [],
        Extraction.mk (some "fact") (some "ok") "" []]) "ghost" =
      groupTexts [Extraction.mk (some "ghost") (some "   ") "" [],
        Extraction.mk (some "fact") (some "ok") "" []] "ghost" ∧
    "ghost" ∉ sectionLabels [Extraction.mk (some "ghost") (some "   ") "" [],
      Extraction.mk (some "fact") (some "ok") "" []] :=
  ⟨(flatten_stable_grouping [Extraction.mk (some "ghost") (some "   ") "" [],
      Extraction.mk (some "fact") (some "ok") "" []] "ghost").1,
   (flatten_stable_grouping [Extraction.mk (some "ghost") (some "   ") "" [],
      Extraction.mk (some "fact") (some "ok") "" []] "ghost").2 (by decide)⟩

/-- Claim C10: a record without an `extraction_class` attribute is grouped
under the canonical label `fact`: its non-blank trimmed text lands in the
fact group, and alone it produces exactly a Facts section with the text as
a bullet, not a section of its own. -/
theorem missing_class_defaults_to_fact (e : Extraction)
    (hclass : e.extraction_class = none) (htext : textOf e ≠ "") :
    classOf e = "fact" ∧
    groupTexts [e] "fact" = [textOf e] ∧
    (∀ l : String, l ≠ "fact" → groupTexts [e] l = []) ∧
    flattenExtractions (some [e]) = "Facts:\n- " ++ textOf e := by
  have hc : classOf e = "fact" := by rw [classOf, hclass]; rfl
  have hk : kept e = true := by
    rw [kept]; exact bne_iff_ne.2 htext
  have hg : groupTexts [e] "fact" = [textOf e] := by
    simp [groupTexts, hk, hc]
  have hother : ∀ l : String, l ≠ "fact" → groupTexts [e] l = [] := by
    intro l hl
    simp [groupTexts, hc, Ne.symm hl]
  refine ⟨hc, hg, hother, ?_⟩
  rw [flattenExtractions_some, partsSpec]
  have hkeys : keysOf [e] = ["fact"] := by
    rw [keysOf]
    simp [hk, hc, insertKey]
  have hoth : othersOf [e] = [] := by
    rw [othersOf, hkeys]
    decide
  have hso : sortedOthers [e] = [] := by
    rw [sortedOthers, hoth]
    rfl
  rw [hg, hso, hother "summary" (by decide), hother "key_point" (by decide)]
  simp only [ne_eq, not_true_eq_false, if_neg, List.map_nil, List.append_nil,
    List.nil_append, List.cons_ne_self, not_false_eq_true, if_pos]
  show "Facts:\n- " ++ textOf e =
    String.intercalate "\n\n" ["Facts:\n" ++ String.intercalate "\n" [bullet (textOf e)]]
  show "Facts:\n- " ++ textOf e = "Facts:\n" ++ ("- " ++ textOf e)
  apply String.ext
  rw [String.data_append, String.data_append, String.data_append,
    show ("Facts:\n- ").data = "Facts:\n".data ++ "- ".data from by decide,
    List.append_assoc]

theorem missing_class_defaults_to_fact_witness :
    classOf (Extraction.mk none (some " Hi ") "" []) = "fact" ∧
    groupTexts [Extraction.mk none (some " Hi ") "" []] "fact" =
      [textOf (Extraction.mk none (some " Hi ") "" [])] ∧
    (∀ l : String, l ≠ "fact" →
      groupTexts [Extraction.mk none (some " Hi ") "" []] l = []) ∧
    flattenExtractions (some [Extraction.mk none (some " Hi ") "" []]) =
      "Facts:\n- " ++ textOf (Extraction.mk none (some " Hi ") "" []) :=
  missing_class_defaults_to_fact (Extraction.mk none (some " Hi ") "" []) rfl (by decide)
